import Mathlib

/-!
Verification development for the x402 starter kit payment utilities
(`src/lib/payment.ts`): the ECDSA signature v-value normalizer
`normalizeSignatureV` and the payment-header rewriting fetch wrapper
`createNormalizedFetch`, shallowly embedded in Lean.

Modelling conventions:
* JS strings are Lean `String`s; `String.slice` offsets are character
  offsets (the inputs at stake are ASCII hex, where UTF-16 units and
  characters coincide).
* JS number arithmetic on the integers that occur here is exact, so it is
  embedded as `Int` arithmetic; the JS `%` operator is the truncating
  remainder `Int.tmod` (sign of the dividend), exactly as in JS.
* `parseInt(s, 16)` is modelled on its hex-digit domain: the longest
  leading run of hex digits is parsed, `none` (JS `NaN`) when that run is
  empty.  Leading whitespace, signs and `0x` prefixes are not modelled.
* `Number.prototype.toString(16)` on integers is base-16 lowercase
  rendering (`Nat.toDigits 16`), with a leading `-` for negatives; JS
  renders `NaN` as the three-character string `"NaN"`.
-/

namespace X402

/-- Is `c` an ASCII hex digit (`0-9`, `a-f`, `A-F`)? -/
def isHexDigit (c : Char) : Bool :=
  (48 ≤ c.toNat && c.toNat ≤ 57) ||
  (97 ≤ c.toNat && c.toNat ≤ 102) ||
  (65 ≤ c.toNat && c.toNat ≤ 70)

/-- Numeric value of an ASCII hex digit (0 for non-digits). -/
def hexDigitVal (c : Char) : Nat :=
  if 48 ≤ c.toNat ∧ c.toNat ≤ 57 then c.toNat - 48
  else if 97 ≤ c.toNat ∧ c.toNat ≤ 102 then c.toNat - 87
  else if 65 ≤ c.toNat ∧ c.toNat ≤ 70 then c.toNat - 55
  else 0

/-- `parseInt(s, 16)` on its hex-digit domain: parse the longest leading
run of hex digits; `none` models the JS `NaN` result when no digit leads. -/
def parseHex? (s : String) : Option Nat :=
  let ds := s.data.takeWhile isHexDigit
  if ds.isEmpty then none
  else some (ds.foldl (fun a c => 16 * a + hexDigitVal c) 0)

/-- `s.slice(0, n)` (character offsets; the strings at stake are ASCII). -/
def strTake (s : String) (n : Nat) : String := String.mk (s.data.take n)

/-- `s.slice(n)` (character offsets; the strings at stake are ASCII). -/
def strDrop (s : String) (n : Nat) : String := String.mk (s.data.drop n)

/-- `Number.prototype.toString(16)`: base-16 lowercase rendering of an
integer, leading `-` for negatives. -/
def toHexLower (i : ℤ) : String :=
  if i < 0 then "-" ++ String.mk (Nat.toDigits 16 i.natAbs)
  else String.mk (Nat.toDigits 16 i.natAbs)

/-- `s.padStart(2, '0')`. -/
def padStart2 (s : String) : String :=
  if 2 ≤ s.length then s
  else String.mk (List.replicate (2 - s.length) '0' ++ s.data)

/-- The branch logic of `normalizeSignatureV` on the parsed v value
(payment.ts lines 22-36).  JS `%` is the truncating remainder `Int.tmod`. -/
def normalizeV (vValue : ℤ) (chainId : ℤ) : ℤ :=
  if vValue = 0 ∨ vValue = 1 then vValue + 27
  else if vValue = 27 ∨ vValue = 28 then vValue
  else if 35 ≤ vValue then (vValue - 35 - chainId * 2).tmod 2 + 27
  else vValue

/-- `normalizeSignatureV(signature, chainId)` from payment.ts: slice the
trailing v hex at character offset 130, parse it base 16, normalize via
`normalizeV`, and reassemble with the normalized v rendered through
`toString(16).padStart(2, '0')`.  When the trailing slice has no leading
hex digit, `parseInt` yields `NaN`, every branch test fails, and the
fallback appends `"NaN"` (what `NaN.toString(16).padStart(2,'0')` gives). -/
def normalizeSignatureV (signature : String) (chainId : ℤ) : String :=
  let vHex := strDrop signature 130
  match parseHex? vHex with
  | none => strTake signature 130 ++ "NaN"
  | some v =>
      strTake signature 130 ++ padStart2 (toHexLower (normalizeV (v : ℤ) chainId))

/-- A 130-character all-zero r‖s prefix used for concrete signatures. -/
def zeros130 : String := String.mk (List.replicate 130 '0')

/-- Is `c` a lowercase hex digit (`0-9`, `a-f`)? -/
def isLowerHexDigit (c : Char) : Bool :=
  (48 ≤ c.toNat && c.toNat ≤ 57) || (97 ≤ c.toNat && c.toNat ≤ 102)

/-! ### The fetch wrapper `createNormalizedFetch` (payment.ts lines 50-111)

Request headers come in two supported representations (payment.ts lines
61-70): a `Headers` instance, whose `get`/`set` are case-insensitive in the
header name, and a plain string-keyed JS object, whose lookup is
case-sensitive.  Both are embedded as association lists of (name, value)
pairs; a JS object has at most one entry per key and property assignment
updates in place or appends.  JS truthiness of a header value (the `||`
chain and the `if (paymentHeader)` test) makes the empty string count as
absent. -/

/-- Request headers as an ordered association list (name, value). -/
abbrev HeaderMap := List (String × String)

/-- `headers[k]` on a plain JS object: exact-key lookup. -/
def getP (m : HeaderMap) (k : String) : Option String :=
  (m.find? (fun p => p.1 == k)).map (fun p => p.2)

/-- `delete headers[k]` on a plain JS object. -/
def deleteP (m : HeaderMap) (k : String) : HeaderMap :=
  m.filter (fun p => p.1 != k)

/-- `headers[k] = v` on a plain JS object: update in place when the key
exists, append otherwise. -/
def setP (m : HeaderMap) (k v : String) : HeaderMap :=
  if m.any (fun p => p.1 == k) then m.map (fun p => if p.1 == k then (k, v) else p)
  else m ++ [(k, v)]

/-- ASCII lowercasing of a header name (header names are ASCII; this is
how a `Headers` instance normalizes names for its case-insensitive
get/set). -/
def lowerName (s : String) : String := String.mk (s.data.map Char.toLower)

/-- `headers.get(k)` on a `Headers` instance: case-insensitive name match. -/
def hGet (m : HeaderMap) (k : String) : Option String :=
  (m.find? (fun p => lowerName p.1 == lowerName k)).map (fun p => p.2)

/-- `headers.set(k, v)` on a `Headers` instance: replaces every value held
under the (case-insensitively equal) name. -/
def hSet (m : HeaderMap) (k v : String) : HeaderMap :=
  m.filter (fun p => lowerName p.1 != lowerName k) ++ [(lowerName k, v)]

/-- JS truthiness of a header value: `undefined`/`null` and the empty
string are falsy. -/
def truthy (o : Option String) : Option String :=
  match o with
  | some v => if v = "" then none else some v
  | none => none

/-- The `||` chain of payment.ts lines 68-69 on a plain object:
`headers['x-payment'] || headers['X-PAYMENT'] ||
 headers['payment-signature'] || headers['PAYMENT-SIGNATURE']`. -/
def findPaymentP (m : HeaderMap) : Option String :=
  match truthy (getP m "x-payment") with
  | some v => some v
  | none =>
    match truthy (getP m "X-PAYMENT") with
    | some v => some v
    | none =>
      match truthy (getP m "payment-signature") with
      | some v => some v
      | none => truthy (getP m "PAYMENT-SIGNATURE")

/-- The `||` chain of payment.ts lines 62-63 on a `Headers` instance (the
same four names, read case-insensitively). -/
def findPaymentH (m : HeaderMap) : Option String :=
  match truthy (hGet m "x-payment") with
  | some v => some v
  | none =>
    match truthy (hGet m "X-PAYMENT") with
    | some v => some v
    | none =>
      match truthy (hGet m "payment-signature") with
      | some v => some v
      | none => truthy (hGet m "PAYMENT-SIGNATURE")

/-- The three shapes `init?.headers` can take for the wrapper: a `Headers`
instance, a plain object, or anything else (omitted, `undefined`, ...). -/
inductive HeadersRep where
  | headersObj (m : HeaderMap)
  | plainObj (m : HeaderMap)
  | unsupported
deriving DecidableEq

/-- The decoded payment envelope: `payload.signature` when present (and a
string), plus the remaining opaque JSON content. -/
structure Envelope (α : Type) where
  payloadSig? : Option String
  rest : α

/-- `atob`/`JSON.parse` and `JSON.stringify`/`btoa` are platform
primitives, embedded abstractly: `decode` returns `none` exactly when
`JSON.parse(atob(s))` throws, `encode` is the re-serialization. -/
structure Codec (α : Type) where
  decode : String → Option (Envelope α)
  encode : Envelope α → String

/-- The body of the `try` block (payment.ts lines 75-100) up to the header
mutation: decode the payment header value, and when `decoded.payload?.
signature` is truthy, produce the re-encoded header value with the
signature normalized.  `none` means the headers are left untouched (decode
threw and was caught, or no truthy signature field). -/
def processPayment {α : Type} (c : Codec α) (chainId : ℤ) (h : String) : Option String :=
  match c.decode h with
  | none => none
  | some env =>
    match env.payloadSig? with
    | none => none
    | some s =>
      if s = "" then none
      else some (c.encode { env with payloadSig? := some (normalizeSignatureV s chainId) })

/-- The full effect of one wrapper invocation on `init.headers`
(payment.ts lines 58-104): find the payment header, process it, and on
success write the new value back — `set('X-PAYMENT', ...)` on a `Headers`
instance, or `delete x-payment; delete X-PAYMENT; X-PAYMENT = ...` on a
plain object.  Unsupported representations are untouched. -/
def rewriteHeaders {α : Type} (c : Codec α) (chainId : ℤ) (h : HeadersRep) : HeadersRep :=
  match h with
  | .headersObj m =>
    match findPaymentH m with
    | none => .headersObj m
    | some p =>
      match processPayment c chainId p with
      | none => .headersObj m
      | some nv => .headersObj (hSet m "X-PAYMENT" nv)
  | .plainObj m =>
    match findPaymentP m with
    | none => .plainObj m
    | some p =>
      match processPayment c chainId p with
      | none => .plainObj m
      | some nv => .plainObj (setP (deleteP (deleteP m "x-payment") "X-PAYMENT") "X-PAYMENT" nv)
  | .unsupported => .unsupported

/-- The payment-header lookup across the three representations
(payment.ts lines 59-70): `null` when the representation is unsupported. -/
def findPaymentR : HeadersRep → Option String
  | .headersObj m => findPaymentH m
  | .plainObj m => findPaymentP m
  | .unsupported => none

/-- The arguments the wrapped `fetch` primitive is finally invoked with:
the (opaque) url, the non-header part of `init` (opaque), and the headers.
-/
structure FetchCall where
  url : Nat
  restInit : Nat
  headers : HeadersRep
deriving DecidableEq

/-- One invocation of the wrapper returned by
`createNormalizedFetch(chainId)`: the underlying `fetch` is always called
(every failure inside the `try` is caught), with the same url and init
fields, the headers possibly rewritten in place.  The function being total
embeds the fact that no error propagates out of the wrapper. -/
def normalizedFetch {α : Type} (c : Codec α) (chainId : ℤ) (call : FetchCall) : FetchCall :=
  { call with headers := rewriteHeaders c chainId call.headers }

/-- Modelled from the spec (§4.2 step 2 and §3): the four payment header
name variants in priority order. -/
def specPriorityNames : List String :=
  ["x-payment", "X-PAYMENT", "payment-signature", "PAYMENT-SIGNATURE"]

/-- Modelled from the spec (§4.2 step 2): "Search for a payment header
using, in priority order, the four name variants listed in §3; first match
wins" — on a plain mapping, where a present-but-falsy value is no match. -/
def specFirstMatch (m : HeaderMap) : Option String :=
  specPriorityNames.findSome? fun k => truthy (getP m k)

/-- A concrete signature used by the concrete codec below. -/
def demoSig : String := zeros130 ++ "1c"

/-- A concrete codec: exactly the string "PAY" decodes, to an envelope
with a truthy `payload.signature`; re-encoding yields "ENC". -/
def demoCodec : Codec Unit :=
  { decode := fun s => if s = "PAY" then some { payloadSig? := some demoSig, rest := () } else none
    encode := fun _ => "ENC" }

/-- A concrete codec on which every decode fails (invalid base64/JSON). -/
def noneCodec : Codec Unit :=
  { decode := fun _ => none
    encode := fun _ => "" }

/-! ### Helper lemmas -/

theorem length_mkStr (l : List Char) : (String.mk l).length = l.length := rfl

theorem strTake_append_strDrop (s : String) (n : Nat) :
    strTake s n ++ strDrop s n = s := by
  cases s with
  | mk l => exact congrArg String.mk (List.take_append_drop n l)

/-- The truncating remainder by 2 takes one of three values. -/
theorem tmod_two_cases (x : ℤ) : x.tmod 2 = -1 ∨ x.tmod 2 = 0 ∨ x.tmod 2 = 1 := by
  cases x with
  | ofNat n =>
      rcases Nat.mod_two_eq_zero_or_one n with h | h <;>
        simp [Int.tmod, show ((2:ℤ) = Int.ofNat 2) from rfl, h]
  | negSucc n =>
      rcases Nat.mod_two_eq_zero_or_one (n+1) with h | h <;>
        simp [Int.tmod, show ((2:ℤ) = Int.ofNat 2) from rfl, Nat.succ_eq_add_one, h]

theorem hexDigitVal_lt (c : Char) (h : isHexDigit c = true) : hexDigitVal c < 16 := by
  simp only [isHexDigit, Bool.or_eq_true, Bool.and_eq_true, decide_eq_true_eq] at h
  unfold hexDigitVal
  split_ifs <;> omega

theorem parseHex?_two (c1 c2 : Char) (h1 : isHexDigit c1 = true) (h2 : isHexDigit c2 = true) :
    parseHex? (String.mk [c1, c2]) = some (16 * hexDigitVal c1 + hexDigitVal c2) := by
  simp [parseHex?, List.takeWhile, h1, h2, List.foldl]

theorem toDigitsCore_lt16 (fuel n : Nat) (ds : List Char) (hf : 0 < fuel) (h : n < 16) :
    Nat.toDigitsCore 16 fuel n ds = Nat.digitChar n :: ds := by
  cases fuel with
  | zero => omega
  | succ f =>
      simp [Nat.toDigitsCore, Nat.div_eq_of_lt h, Nat.mod_eq_of_lt h]

theorem toDigits16_small (n : Nat) (h : n < 16) :
    Nat.toDigits 16 n = [Nat.digitChar n] :=
  toDigitsCore_lt16 (n+1) n [] (Nat.succ_pos n) h

theorem toDigits16_two (n : Nat) (h1 : 16 ≤ n) (h2 : n < 256) :
    Nat.toDigits 16 n = [Nat.digitChar (n / 16), Nat.digitChar (n % 16)] := by
  have hne : ¬ (n / 16 = 0) := by omega
  have hlt : n / 16 < 16 := by omega
  show Nat.toDigitsCore 16 (n+1) n [] = _
  simp only [Nat.toDigitsCore, hne, if_false]
  exact toDigitsCore_lt16 n (n / 16) _ (by omega) hlt

theorem digitChar_isLowerHex : ∀ n : Nat, n < 16 → isLowerHexDigit (Nat.digitChar n) = true := by
  decide

/-- Rendering an integer in [0, 255] through
`toString(16).padStart(2, '0')` yields exactly two lowercase hex digits. -/
theorem padTwo_hex (v : ℤ) (h0 : 0 ≤ v) (h255 : v ≤ 255) :
    ∃ a b, padStart2 (toHexLower v) = String.mk [a, b] ∧
      isLowerHexDigit a = true ∧ isLowerHexDigit b = true := by
  have hnotneg : ¬ v < 0 := by omega
  have hn : v.natAbs ≤ 255 := by omega
  unfold toHexLower
  rw [if_neg hnotneg]
  rcases Nat.lt_or_ge v.natAbs 16 with hlt | hge
  · rw [toDigits16_small _ hlt]
    refine ⟨'0', Nat.digitChar v.natAbs, ?_, by decide, digitChar_isLowerHex _ hlt⟩
    simp [padStart2, length_mkStr]
  · have h256 : v.natAbs < 256 := by omega
    rw [toDigits16_two _ hge h256]
    refine ⟨Nat.digitChar (v.natAbs / 16), Nat.digitChar (v.natAbs % 16), ?_,
      digitChar_isLowerHex _ (by omega), digitChar_isLowerHex _ (Nat.mod_lt _ (by norm_num))⟩
    simp [padStart2, length_mkStr]

/-- `normalizeV` maps [0, 255] into [0, 255] for every chain id. -/
theorem normalizeV_bound (v ch : ℤ) (h0 : 0 ≤ v) (h255 : v ≤ 255) :
    0 ≤ normalizeV v ch ∧ normalizeV v ch ≤ 255 := by
  rcases tmod_two_cases (v - 35 - ch * 2) with ht | ht | ht <;>
    (unfold normalizeV; split_ifs <;> omega)

/-! ### Claims about the signature normalizer -/

/-- Claim C1 (code bug): the spec requires
`yParity = (vValue - 35 - chainId*2) mod 2` to land in {0,1} via true
mathematical modulo even when the subtraction is negative, making the
normalized v always 27 or 28 in the `vValue ≥ 35` branch.  The code uses
the JS truncating remainder: at vValue = 36 (trailing "24") and
chainId = 1 the subtraction is -1, the code's yParity is -1 and the
normalized v is 26 (trailing "1a"), while the mathematical modulo the
spec mandates gives 1 (so v = 28). -/
theorem c1_truncating_mod_violation :
    normalizeSignatureV (zeros130 ++ "24") 1 = zeros130 ++ "1a" ∧
    normalizeV 36 1 = 26 ∧
    ¬ (normalizeV 36 1 = 27 ∨ normalizeV 36 1 = 28) ∧
    (36 - 35 - 1 * 2 : ℤ).tmod 2 = -1 ∧
    ((36 - 35 - 1 * 2 : ℤ) % 2 = 1) := by decide

/-- Claim C3 (counterexample): for trailing v hex "150f5" (vValue = 86261)
and chainId = 43113, the code normalizes to v = 27 (trailing "1b"), not
28 as the claim states: 86261 = 43113*2 + 35 + 0, i.e. yParity 0. -/
theorem c3_spec_example_false :
    parseHex? (strDrop (zeros130 ++ "150f5") 130) = some 86261 ∧
    normalizeSignatureV (zeros130 ++ "150f5") 43113 = zeros130 ++ "1b" ∧
    parseHex? (strDrop (normalizeSignatureV (zeros130 ++ "150f5") 43113) 130) = some 27 ∧
    (27 : Nat) ≠ 28 := by decide

/-- Claim C3 (amended): with chainId = 43113, v = 86261 is the yParity = 0
EIP-155 encoding and normalizes to 27; the yParity = 1 encoding is
v = 86262, which normalizes to 28 (trailing "1c"). -/
theorem c3_amended_values :
    normalizeV 86261 43113 = 27 ∧ normalizeV 86262 43113 = 28 ∧
    normalizeSignatureV (zeros130 ++ "150f5") 43113 = zeros130 ++ "1b" ∧
    normalizeSignatureV (zeros130 ++ "150f6") 43113 = zeros130 ++ "1c" := by decide

/-- Claim C5 (counterexample): the trailing hex "1B" parses to v = 27, yet
`normalizeSignatureV` rewrites it to lowercase "1b", so the function is
not the identity on every signature whose trailing v parses to 27 or 28. -/
theorem c5_not_identity_uppercase :
    parseHex? (strDrop (zeros130 ++ "1B") 130) = some 27 ∧
    normalizeSignatureV (zeros130 ++ "1B") 43113 ≠ zeros130 ++ "1B" := by decide

/-- Claim C5 (amended): for v already in legacy form the normalized v
value is unchanged (`normalizeV` is the identity on 27 and 28 for every
chainId), and `normalizeSignatureV` is the identity on the signature
string exactly when the trailing v portion is already spelled as the
canonical two lowercase hex digits "1b" or "1c". -/
theorem c5_legacy_identity (sig : String) (ch : ℤ)
    (h : strDrop sig 130 = "1b" ∨ strDrop sig 130 = "1c") :
    normalizeSignatureV sig ch = sig ∧
    normalizeV 27 ch = 27 ∧ normalizeV 28 ch = 28 := by
  refine ⟨?_, rfl, rfl⟩
  rcases h with h | h
  · have hp : parseHex? "1b" = some 27 := by decide
    simp only [normalizeSignatureV, h, hp]
    have hnv : normalizeV ((27 : ℕ) : ℤ) ch = 27 := by unfold normalizeV; norm_num
    rw [hnv]
    have hren : padStart2 (toHexLower (27 : ℤ)) = "1b" := by decide
    rw [hren, ← h, strTake_append_strDrop]
  · have hp : parseHex? "1c" = some 28 := by decide
    simp only [normalizeSignatureV, h, hp]
    have hnv : normalizeV ((28 : ℕ) : ℤ) ch = 28 := by unfold normalizeV; norm_num
    rw [hnv]
    have hren : padStart2 (toHexLower (28 : ℤ)) = "1c" := by decide
    rw [hren, ← h, strTake_append_strDrop]

/-- Claim C5 witness: a concrete already-canonical signature is returned
unchanged. -/
theorem c5_witness : normalizeSignatureV (zeros130 ++ "1b") 7 = zeros130 ++ "1b" :=
  (c5_legacy_identity (zeros130 ++ "1b") 7 (Or.inl (by decide))).1

/-- Claim C6: for every chain id C and yParity y ∈ {0,1}, a signature
whose trailing v parses to C*2 + 35 + y normalizes (with chainId = C) to
v = 27 + y, both at the value level and through the full string
reassembly. -/
theorem c6_eip155_roundtrip (C y : ℕ) (sig : String) (hy : y = 0 ∨ y = 1)
    (hv : parseHex? (strDrop sig 130) = some (C * 2 + 35 + y)) :
    normalizeV ((C * 2 + 35 + y : ℕ) : ℤ) (C : ℤ) = 27 + (y : ℤ) ∧
    normalizeSignatureV sig (C : ℤ) =
      strTake sig 130 ++ padStart2 (toHexLower (27 + (y : ℤ))) := by
  have hcore : normalizeV ((C * 2 + 35 + y : ℕ) : ℤ) (C : ℤ) = 27 + (y : ℤ) := by
    unfold normalizeV
    rw [if_neg (by omega), if_neg (by omega), if_pos (by omega)]
    have harg : ((C * 2 + 35 + y : ℕ) : ℤ) - 35 - (C : ℤ) * 2 = (y : ℤ) := by
      push_cast; ring
    rw [harg]
    rcases hy with rfl | rfl <;> decide
  refine ⟨hcore, ?_⟩
  simp only [normalizeSignatureV, hv]
  rw [hcore]

set_option maxRecDepth 4000 in
/-- Claim C4 (counterexample): for a signature whose portion after hex
offset 130 is the single hex digit "0", the output is one character
longer than the input (131 becomes 132): `toString(16).padStart(2,'0')`
always appends two characters. -/
theorem c4_single_digit_grows :
    strDrop (zeros130 ++ "0") 130 = "0" ∧ isHexDigit '0' = true ∧
    (zeros130 ++ "0").length = 131 ∧
    (normalizeSignatureV (zeros130 ++ "0") 1).length = 132 := by decide

/-- Claim C4 (amended): for every input whose portion after hex offset 130
is exactly two hex digits, the output keeps the first 130 characters
unchanged and appends the normalized v as exactly two lowercase
zero-padded hex digits, so the output length equals the input length;
for a single-digit v portion the output is instead one character longer
than the input. -/
theorem c4_two_digit_reassembly (sig : String) (ch : ℤ) (c1 c2 : Char)
    (hdrop : sig.data.drop 130 = [c1, c2])
    (h1 : isHexDigit c1 = true) (h2 : isHexDigit c2 = true) :
    ∃ a b, normalizeSignatureV sig ch = strTake sig 130 ++ String.mk [a, b] ∧
      isLowerHexDigit a = true ∧ isLowerHexDigit b = true ∧
      (normalizeSignatureV sig ch).length = sig.length := by
  have hdropS : strDrop sig 130 = String.mk [c1, c2] := congrArg String.mk hdrop
  have hparse := parseHex?_two c1 c2 h1 h2
  have hv1 := hexDigitVal_lt c1 h1
  have hv2 := hexDigitVal_lt c2 h2
  have h0 : (0 : ℤ) ≤ ((16 * hexDigitVal c1 + hexDigitVal c2 : ℕ) : ℤ) := by positivity
  have h255 : ((16 * hexDigitVal c1 + hexDigitVal c2 : ℕ) : ℤ) ≤ 255 := by
    have : 16 * hexDigitVal c1 + hexDigitVal c2 ≤ 255 := by omega
    exact_mod_cast this
  obtain ⟨hb0, hb255⟩ :=
    normalizeV_bound ((16 * hexDigitVal c1 + hexDigitVal c2 : ℕ) : ℤ) ch h0 h255
  obtain ⟨a, b, hab, ha, hbb⟩ :=
    padTwo_hex (normalizeV ((16 * hexDigitVal c1 + hexDigitVal c2 : ℕ) : ℤ) ch) hb0 hb255
  have heq : normalizeSignatureV sig ch = strTake sig 130 ++ String.mk [a, b] := by
    simp only [normalizeSignatureV, hdropS, hparse]
    rw [hab]
  refine ⟨a, b, heq, ha, hbb, ?_⟩
  have hlen : sig.data.length = 132 := by
    have := congrArg List.length hdrop
    simp only [List.length_drop, List.length_cons, List.length_nil] at this
    omega
  rw [heq]
  show (strTake sig 130 ++ String.mk [a, b]).data.length = sig.data.length
  simp [strTake, String.data_append, hlen]

/-- Claim C4 witness: a concrete two-hex-digit trailing v gives an
equal-length output made of the unchanged 130-character head plus two
lowercase hex digits. -/
theorem c4_witness :
    ∃ a b, normalizeSignatureV (zeros130 ++ "24") 5 =
        strTake (zeros130 ++ "24") 130 ++ String.mk [a, b] ∧
      isLowerHexDigit a = true ∧ isLowerHexDigit b = true ∧
      (normalizeSignatureV (zeros130 ++ "24") 5).length = (zeros130 ++ "24").length :=
  c4_two_digit_reassembly (zeros130 ++ "24") 5 '2' '4' (by decide) (by decide) (by decide)

/-- Claim C6 witness: chainId 43113, yParity 1 (v = 86262, trailing hex
"150f6") normalizes to 28. -/
theorem c6_witness :
    normalizeV ((43113 * 2 + 35 + 1 : ℕ) : ℤ) ((43113 : ℕ) : ℤ) = 27 + ((1 : ℕ) : ℤ) ∧
    normalizeSignatureV (zeros130 ++ "150f6") ((43113 : ℕ) : ℤ) =
      strTake (zeros130 ++ "150f6") 130 ++ padStart2 (toHexLower (27 + ((1 : ℕ) : ℤ))) :=
  c6_eip155_roundtrip 43113 1 (zeros130 ++ "150f6") (Or.inr rfl) (by decide)

/-! ### Claims about the header-rewriting fetch wrapper -/

theorem find?_filter_none {β : Type} (l : List β) (q r : β → Bool)
    (h : ∀ x, q x = true → r x = false) : (l.filter r).find? q = none := by
  induction l with
  | nil => rfl
  | cons x xs ih =>
      simp only [List.filter_cons]
      by_cases hr : r x = true
      · rw [if_pos hr]
        have hq : ¬ q x = true := fun hq => by simp [h x hq] at hr
        rw [List.find?_cons_of_neg _ hq]
        exact ih
      · rw [if_neg hr]
        exact ih

theorem find?_filter_of_imp {β : Type} (l : List β) (q r : β → Bool)
    (h : ∀ x, q x = true → r x = true) : (l.filter r).find? q = l.find? q := by
  induction l with
  | nil => rfl
  | cons x xs ih =>
      simp only [List.filter_cons]
      by_cases hq : q x = true
      · rw [if_pos (h x hq), List.find?_cons_of_pos _ hq, List.find?_cons_of_pos _ hq]
      · by_cases hr : r x = true
        · rw [if_pos hr, List.find?_cons_of_neg _ hq, List.find?_cons_of_neg _ hq]
          exact ih
        · rw [if_neg hr, List.find?_cons_of_neg _ hq]
          exact ih

theorem getP_deleteP_self (m : HeaderMap) (k : String) :
    getP (deleteP m k) k = none := by
  unfold getP deleteP
  rw [find?_filter_none]
  · rfl
  · intro x hx
    simp only [bne, hx, Bool.not_true]

theorem getP_deleteP_ne (m : HeaderMap) (t k : String) (h : k ≠ t) :
    getP (deleteP m t) k = getP m k := by
  unfold getP deleteP
  rw [find?_filter_of_imp]
  intro x hx
  have : x.1 = k := by simpa using hx
  simp [bne, this, h]

theorem getP_append_self (l : HeaderMap) (k v : String) (h : getP l k = none) :
    getP (l ++ [(k, v)]) k = some v := by
  unfold getP at h ⊢
  have hfind : l.find? (fun p => p.1 == k) = none := by
    cases hf : l.find? (fun p => p.1 == k) with
    | none => rfl
    | some x => rw [hf] at h; simp at h
  rw [List.find?_append, hfind]
  simp

theorem getP_append_ne (l : HeaderMap) (t k v : String) (h : k ≠ t) :
    getP (l ++ [(t, v)]) k = getP l k := by
  unfold getP
  rw [List.find?_append]
  have hne : ((t, v).1 == k) = false := by
    simp only [beq_eq_false_iff_ne, ne_eq]
    exact fun he => h he.symm
  have htail : List.find? (fun p => p.1 == k) [(t, v)] = none := by
    simp [List.find?, hne]
  rw [htail]
  cases l.find? (fun p => p.1 == k) <;> rfl

theorem setP_of_absent (l : HeaderMap) (k v : String) (h : getP l k = none) :
    setP l k v = l ++ [(k, v)] := by
  unfold setP
  have hfind : l.find? (fun p => p.1 == k) = none := by
    unfold getP at h
    cases hf : l.find? (fun p => p.1 == k) with
    | none => rfl
    | some x => rw [hf] at h; simp at h
  have hany : l.any (fun p => p.1 == k) = false := by
    rw [List.any_eq_false]
    intro x hx
    have := List.find?_eq_none.mp hfind x hx
    simpa using this
  rw [if_neg (by simp [hany])]

theorem hGet_hSet_XP (m : HeaderMap) (v : String) :
    hGet (hSet m "X-PAYMENT" v) "X-PAYMENT" = some v := by
  unfold hGet hSet
  have h1 : lowerName "X-PAYMENT" = "x-payment" := by decide
  rw [h1, List.find?_append]
  have hfilter : (m.filter (fun p => lowerName p.1 != "x-payment")).find?
      (fun p => lowerName p.1 == "x-payment") = none :=
    find?_filter_none _ _ _ (fun x hx => by simp only [bne, hx, Bool.not_true])
  rw [hfilter]
  have hhit : (lowerName "x-payment" == "x-payment") = true := by decide
  simp [List.find?, hhit]

theorem hGet_hSet_XP_other (m : HeaderMap) (v k : String)
    (hk : lowerName k ≠ "x-payment") :
    hGet (hSet m "X-PAYMENT" v) k = hGet m k := by
  unfold hGet hSet
  have h1 : lowerName "X-PAYMENT" = "x-payment" := by decide
  rw [h1, List.find?_append]
  have hfilter : (m.filter (fun p => lowerName p.1 != "x-payment")).find?
      (fun p => lowerName p.1 == lowerName k) =
      m.find? (fun p => lowerName p.1 == lowerName k) := by
    apply find?_filter_of_imp
    intro x hx
    have hx' : lowerName x.1 = lowerName k := by simpa using hx
    simp only [bne_iff_ne, ne_eq, hx']
    exact hk
  rw [hfilter]
  have h2 : lowerName "x-payment" = "x-payment" := by decide
  have htail : List.find? (fun p => lowerName p.1 == lowerName k)
      [("x-payment", v)] = none := by
    have hne : (lowerName "x-payment" == lowerName k) = false := by
      simp only [h2, beq_eq_false_iff_ne, ne_eq]
      exact fun he => hk he.symm
    simp [List.find?, hne]
  rw [htail]
  cases m.find? (fun p => lowerName p.1 == lowerName k) <;> rfl

set_option maxRecDepth 4000 in
/-- Claim C2 (counterexample): with a concrete codec, a payment header
found under `payment-signature` is rewritten to a new `X-PAYMENT` header,
but the old `payment-signature` header is NOT removed (the code only
deletes the `x-payment`/`X-PAYMENT` keys), so two payment headers survive
the rewrite, contradicting "all old name variants ... are removed" and
"exactly one payment header ... remains". -/
theorem c2_stale_variant_survives :
    rewriteHeaders demoCodec 1 (.plainObj [("payment-signature", "PAY")]) =
      .plainObj [("payment-signature", "PAY"), ("X-PAYMENT", "ENC")] ∧
    getP [("payment-signature", "PAY"), ("X-PAYMENT", "ENC")] "payment-signature" =
      some "PAY" ∧
    getP [("payment-signature", "PAY"), ("X-PAYMENT", "ENC")] "X-PAYMENT" =
      some "ENC" := by decide

/-- Claim C2 (amended): on a successful rewrite the new value is written
under the canonical `X-PAYMENT` name and the `x-payment`/`X-PAYMENT`
variants cannot survive with stale values (deleted on the plain mapping,
overwritten case-insensitively on a `Headers` instance) — but headers
under any other name, in particular the `payment-signature` /
`PAYMENT-SIGNATURE` variants, are left untouched and survive alongside
the new canonical header. -/
theorem c2_rewrite_canonical :
    (∀ (α : Type) (c : Codec α) (ch : ℤ) (m : HeaderMap) (p nv : String),
      findPaymentP m = some p → processPayment c ch p = some nv →
      ∃ m', rewriteHeaders c ch (.plainObj m) = .plainObj m' ∧
        getP m' "X-PAYMENT" = some nv ∧
        getP m' "x-payment" = none ∧
        (∀ k, k ≠ "x-payment" → k ≠ "X-PAYMENT" → getP m' k = getP m k)) ∧
    (∀ (α : Type) (c : Codec α) (ch : ℤ) (m : HeaderMap) (p nv : String),
      findPaymentH m = some p → processPayment c ch p = some nv →
      ∃ m', rewriteHeaders c ch (.headersObj m) = .headersObj m' ∧
        hGet m' "X-PAYMENT" = some nv ∧
        (∀ k, lowerName k ≠ "x-payment" → hGet m' k = hGet m k)) := by
  constructor
  · intro α c ch m p nv hfind hproc
    have habs : getP (deleteP (deleteP m "x-payment") "X-PAYMENT") "X-PAYMENT" = none :=
      getP_deleteP_self _ _
    refine ⟨setP (deleteP (deleteP m "x-payment") "X-PAYMENT") "X-PAYMENT" nv,
      ?_, ?_, ?_, ?_⟩
    · simp [rewriteHeaders, hfind, hproc]
    · rw [setP_of_absent _ _ _ habs]
      exact getP_append_self _ _ _ habs
    · rw [setP_of_absent _ _ _ habs, getP_append_ne _ _ _ _ (by decide),
        getP_deleteP_ne _ _ _ (by decide)]
      exact getP_deleteP_self _ _
    · intro k hk1 hk2
      rw [setP_of_absent _ _ _ habs, getP_append_ne _ _ _ _ hk2,
        getP_deleteP_ne _ _ _ hk2, getP_deleteP_ne _ _ _ hk1]
  · intro α c ch m p nv hfind hproc
    refine ⟨hSet m "X-PAYMENT" nv, ?_, hGet_hSet_XP m nv,
      fun k hk => hGet_hSet_XP_other m nv k hk⟩
    simp [rewriteHeaders, hfind, hproc]

set_option maxRecDepth 4000 in
/-- Claim C2 witness: the amended rewrite property at the concrete
counterexample input. -/
theorem c2_witness :
    (∃ m', rewriteHeaders demoCodec 1 (.plainObj [("payment-signature", "PAY")]) =
        .plainObj m' ∧
      getP m' "X-PAYMENT" = some "ENC" ∧
      getP m' "x-payment" = none ∧
      (∀ k, k ≠ "x-payment" → k ≠ "X-PAYMENT" →
        getP m' k = getP [("payment-signature", "PAY")] k)) ∧
    (∃ m', rewriteHeaders demoCodec 1 (.headersObj [("payment-signature", "PAY")]) =
        .headersObj m' ∧
      hGet m' "X-PAYMENT" = some "ENC" ∧
      (∀ k, lowerName k ≠ "x-payment" →
        hGet m' k = hGet [("payment-signature", "PAY")] k)) :=
  ⟨c2_rewrite_canonical.1 Unit demoCodec 1 _ "PAY" "ENC" (by decide) (by decide),
   c2_rewrite_canonical.2 Unit demoCodec 1 _ "PAY" "ENC" (by decide) (by decide)⟩

/-- Claim C7: the payment header lookup on a plain mapping checks the four
name variants in the fixed priority order `x-payment`, `X-PAYMENT`,
`payment-signature`, `PAYMENT-SIGNATURE` with first (truthy) match wins —
it coincides with the spec-side `specFirstMatch` — and in particular when
both `x-payment` and `X-PAYMENT` carry payloads, the `x-payment` value is
the one selected. -/
theorem c7_priority_order :
    (∀ m : HeaderMap, findPaymentP m = specFirstMatch m) ∧
    (∀ (m : HeaderMap) (v₁ v₂ : String),
      getP m "x-payment" = some v₁ → v₁ ≠ "" →
      getP m "X-PAYMENT" = some v₂ →
      findPaymentP m = some v₁) := by
  constructor
  · intro m
    simp only [findPaymentP, specFirstMatch, specPriorityNames, List.findSome?]
    cases truthy (getP m "x-payment") <;>
      cases truthy (getP m "X-PAYMENT") <;>
        cases truthy (getP m "payment-signature") <;>
          cases truthy (getP m "PAYMENT-SIGNATURE") <;> rfl
  · intro m v₁ v₂ h1 hne h2
    have ht : truthy (getP m "x-payment") = some v₁ := by
      rw [h1]; simp [truthy, hne]
    simp [findPaymentP, ht]

/-- Claim C7 witness: with both casings present and different, the
lowercase `x-payment` value wins. -/
theorem c7_witness :
    findPaymentP [("X-PAYMENT", "B"), ("x-payment", "A")] =
      specFirstMatch [("X-PAYMENT", "B"), ("x-payment", "A")] ∧
    findPaymentP [("x-payment", "A"), ("X-PAYMENT", "B")] = some "A" :=
  ⟨c7_priority_order.1 [("X-PAYMENT", "B"), ("x-payment", "A")],
   c7_priority_order.2 _ "A" "B" (by decide) (by decide) (by decide)⟩

/-- Claim C8: when the payment header value found in the request fails
decoding (`JSON.parse(atob(...))` throws, modelled as `decode = none`),
the exception is caught, the headers are left exactly as they were, and
the wrapped fetch primitive is still invoked with the original options
(`normalizedFetch` being total and the identity here embeds both). -/
theorem c8_decode_failure_nonfatal {α : Type} (c : Codec α) (ch : ℤ)
    (call : FetchCall) (p : String)
    (hfind : findPaymentR call.headers = some p)
    (hdec : c.decode p = none) :
    normalizedFetch c ch call = call := by
  have hproc : processPayment c ch p = none := by
    simp [processPayment, hdec]
  obtain ⟨u, r, hs⟩ := call
  cases hs with
  | headersObj m =>
      simp only [findPaymentR] at hfind
      simp [normalizedFetch, rewriteHeaders, hfind, hproc]
  | plainObj m =>
      simp only [findPaymentR] at hfind
      simp [normalizedFetch, rewriteHeaders, hfind, hproc]
  | unsupported => simp [findPaymentR] at hfind

/-- Claim C8 witness: a non-decodable payment header value leaves the
call unchanged. -/
theorem c8_witness :
    normalizedFetch noneCodec 1 ⟨0, 0, .plainObj [("x-payment", "notb64")]⟩ =
      ⟨0, 0, .plainObj [("x-payment", "notb64")]⟩ :=
  c8_decode_failure_nonfatal noneCodec 1 _ "notb64" (by decide) rfl

/-- Claim C9: when `options.headers` is neither a `Headers` instance nor a
plain string-keyed object (e.g. omitted entirely), no rewriting occurs,
no exception is raised (the embedding is total), and the request is
delegated to the underlying fetch with the options unchanged. -/
theorem c9_unsupported_headers_noop {α : Type} (c : Codec α) (ch : ℤ) (u r : Nat) :
    normalizedFetch c ch ⟨u, r, .unsupported⟩ = ⟨u, r, .unsupported⟩ := rfl

/-- Claim C10: an empty-string payment header value is falsy, so the `||`
chain skips it and falls through to the remaining variants in priority
order; and when no variant has a truthy value, the invocation delegates
with the headers (and whole call) unchanged. -/
theorem c10_empty_header_skipped :
    (∀ m : HeaderMap, getP m "x-payment" = some "" →
      findPaymentP m =
        match truthy (getP m "X-PAYMENT") with
        | some v => some v
        | none =>
          match truthy (getP m "payment-signature") with
          | some v => some v
          | none => truthy (getP m "PAYMENT-SIGNATURE")) ∧
    (∀ (α : Type) (c : Codec α) (ch : ℤ) (call : FetchCall),
      findPaymentR call.headers = none → normalizedFetch c ch call = call) := by
  constructor
  · intro m h
    simp [findPaymentP, h, truthy]
  · intro α c ch call hfind
    obtain ⟨u, r, hs⟩ := call
    cases hs with
    | headersObj m =>
        simp only [findPaymentR] at hfind
        simp [normalizedFetch, rewriteHeaders, hfind]
    | plainObj m =>
        simp only [findPaymentR] at hfind
        simp [normalizedFetch, rewriteHeaders, hfind]
    | unsupported => rfl

/-- Claim C10 witness: an empty `x-payment` falls through to `X-PAYMENT`,
and all-empty variants leave the call unchanged. -/
theorem c10_witness :
    findPaymentP [("x-payment", ""), ("X-PAYMENT", "B")] = some "B" ∧
    normalizedFetch noneCodec 3 ⟨1, 2, .plainObj [("x-payment", "")]⟩ =
      ⟨1, 2, .plainObj [("x-payment", "")]⟩ := by
  constructor
  · have h := c10_empty_header_skipped.1 [("x-payment", ""), ("X-PAYMENT", "B")]
      (by decide)
    rw [h]
    decide
  · exact c10_empty_header_skipped.2 Unit noneCodec 3 _ (by decide)

end X402
